import Mathlib

/-!
Verification of the erddaplogs log-parsing pipeline (erddaplogs/logparse.py).

The Python source is shallowly embedded: polars/pandas column
transformations become per-row Lean functions on character lists, the
ErddapLogParser object becomes an explicit State record, and the external
IP-lookup service becomes an oracle parameter.  Machine integers are
modelled as Nat/Int; pandas missing values and polars nulls are modelled
with Option.
-/

namespace ErddapLogs

/-! ## Character-list utilities shared by the URL-derivation embedding -/

/-- Removal of every space character: models the pandas call
str.replace applied to a single space with empty replacement in
the function named underscore-parse-columns. -/
def stripSpaces (l : List Char) : List Char := l.filter (fun c => c ≠ ' ')

/-- Splitting on every occurrence of a single literal character: models the
pandas str.split on a one-character separator (pandas treats a
length-one pattern as a literal).  The result is never empty. -/
def splitOnC (sep : Char) : List Char → List (List Char)
  | [] => [[]]
  | c :: cs =>
    if c = sep then [] :: splitOnC sep cs
    else
      match splitOnC sep cs with
      | [] => [[c]]
      | g :: gs => (c :: g) :: gs

/-- The first field of a split: models taking column 0 of the
pandas expand table. -/
def headSplit (sep : Char) (l : List Char) : List Char := (splitOnC sep l).headD []

/-- pandas astype(str) applied to a cell that may hold a missing value:
a missing cell is rendered as the four-character string None.  This is the
stringification that underscore-parse-columns applies to every derived
column before handing it to polars. -/
def optStr : Option (List Char) → List Char
  | none => "None".toList
  | some s => s

/-! ## Per-row embedding of the URL-derivation in underscore-parse-columns -/

/-- Column 0 of the question-mark split of the space-stripped url:
the part of the url before the first question mark. -/
def basePath (url : List Char) : List Char := headSplit '?' (stripSpaces url)

/-- The source computes base underscore url as column 0 of the dot split of
the base path: everything before the first literal dot. -/
def baseUrl (url : List Char) : List Char := headSplit '.' (basePath url)

/-- The slash split of base underscore url (pandas expand table url parts). -/
def urlSegs (url : List Char) : List (List Char) := splitOnC '/' (baseUrl url)

/-- The protocol column: set to the third slash segment when that segment is
one of the four recognized keywords, otherwise left missing. -/
def protocol (url : List Char) : Option (List Char) :=
  match (urlSegs url)[2]? with
  | some seg =>
    if seg = "tabledap".toList ∨ seg = "griddap".toList ∨ seg = "files".toList
        ∨ seg = "info".toList then
      some seg
    else
      none
  | none => none

/-- The erddap request type column as it lands in the polars frame: the
protocol column goes through pandas astype(str), so a missing protocol
becomes the non-null string None.  The column is therefore never null. -/
def erddapRequestType (url : List Char) : Option (List Char) :=
  some (optStr (protocol url))

/-- The raw dataset id column: the fourth slash segment, stringified. -/
def datasetIdRaw (url : List Char) : List Char := optStr ((urlSegs url)[3]?)

/-- The final dataset id column after the polars when/then/otherwise guard in
the source, which nulls the dataset id whenever the erddap request type
column is null.  Because of the astype(str) stringification that guard
never fires. -/
def datasetId (url : List Char) : Option (List Char) :=
  if (erddapRequestType url).isNone then none else some (datasetIdRaw url)

/-- The file type column: column 1 of the dot split of the base path,
stringified; that is the text between the first and the second literal dot
of the base path. -/
def fileType (url : List Char) : List Char :=
  optStr ((splitOnC '.' (basePath url))[1]?)

/-- Written from the claim wording for C8, not from the source: the suffix
after the last literal dot in the file-name component (the last slash
segment) of the base path. -/
def fileTypeLastDotSpec (url : List Char) : List Char :=
  (splitOnC '.' ((splitOnC '/' (basePath url)).getLastD [])).getLastD []

/-! ## Lemmas about the splitting utilities -/

theorem splitOnC_ne_nil (sep : Char) (l : List Char) : splitOnC sep l ≠ [] := by
  cases l with
  | nil => simp [splitOnC]
  | cons c cs =>
    simp only [splitOnC]
    split
    · simp
    · cases h : splitOnC sep cs <;> simp

theorem splitOnC_cons_ne (sep c : Char) (cs : List Char) (h : c ≠ sep) :
    splitOnC sep (c :: cs) =
      (c :: (splitOnC sep cs).headD []) :: (splitOnC sep cs).tail := by
  simp only [splitOnC, if_neg h]
  cases h' : splitOnC sep cs with
  | nil => exact absurd h' (splitOnC_ne_nil sep cs)
  | cons g gs => simp

theorem headSplit_cons_ne (sep c : Char) (cs : List Char) (h : c ≠ sep) :
    headSplit sep (c :: cs) = c :: headSplit sep cs := by
  simp [headSplit, splitOnC_cons_ne sep c cs h]

theorem headSplit_append (sep : Char) (x y : List Char) (h : sep ∉ x) :
    headSplit sep (x ++ y) = x ++ headSplit sep y := by
  induction x with
  | nil => simp
  | cons c cs ih =>
    have hc : c ≠ sep := fun he => h (he ▸ List.mem_cons_self c cs)
    have hcs : sep ∉ cs := fun hm => h (List.mem_cons_of_mem c hm)
    simp [headSplit_cons_ne sep c (cs ++ y) hc, ih hcs]

theorem splitOnC_no_sep (sep : Char) (l : List Char) (h : sep ∉ l) :
    splitOnC sep l = [l] := by
  induction l with
  | nil => simp [splitOnC]
  | cons c cs ih =>
    have hc : c ≠ sep := fun he => h (he ▸ List.mem_cons_self c cs)
    have hcs : sep ∉ cs := fun hm => h (List.mem_cons_of_mem c hm)
    simp [splitOnC_cons_ne sep c cs hc, ih hcs]

theorem headSplit_no_sep (sep : Char) (l : List Char) (h : sep ∉ l) :
    headSplit sep l = l := by
  simp [headSplit, splitOnC_no_sep sep l h]

theorem splitOnC_append_sep (sep : Char) (x rest : List Char) (h : sep ∉ x) :
    splitOnC sep (x ++ sep :: rest) = x :: splitOnC sep rest := by
  induction x with
  | nil => simp [splitOnC]
  | cons c cs ih =>
    have hc : c ≠ sep := fun he => h (he ▸ List.mem_cons_self c cs)
    have hcs : sep ∉ cs := fun hm => h (List.mem_cons_of_mem c hm)
    simp [splitOnC_cons_ne sep c (cs ++ sep :: rest) hc, ih hcs]

theorem mem_headSplit (sep : Char) (l : List Char) (c : Char)
    (h : c ∈ headSplit sep l) : c ∈ l := by
  induction l with
  | nil => simp [headSplit, splitOnC] at h
  | cons a as ih =>
    by_cases ha : a = sep
    · subst ha
      simp [headSplit, splitOnC] at h
    · rw [headSplit_cons_ne sep a as ha] at h
      rcases List.mem_cons.mp h with h | h
      · exact h ▸ List.mem_cons_self a as
      · exact List.mem_cons_of_mem a (ih h)

theorem stripSpaces_no_space (l : List Char) (h : ' ' ∉ l) :
    stripSpaces l = l := by
  simp only [stripSpaces]
  exact List.filter_eq_self.mpr (fun c hc => by
    simp only [decide_eq_true_eq]
    exact fun he => h (he ▸ hc))

theorem mem_stripSpaces (l : List Char) (c : Char) (h : c ∈ stripSpaces l) :
    c ∈ l := List.mem_of_mem_filter h

theorem exists_split_first (sep : Char) (l : List Char) (h : sep ∈ l) :
    ∃ a b : List Char, l = a ++ sep :: b ∧ sep ∉ a := by
  induction l with
  | nil => cases h
  | cons c cs ih =>
    by_cases hc : c = sep
    · exact ⟨[], cs, by simp [hc], by simp⟩
    · rcases List.mem_cons.mp h with h | h
      · exact absurd h.symm hc
      · obtain ⟨a, b, heq, hna⟩ := ih h
        refine ⟨c :: a, b, by simp [heq], ?_⟩
        intro hm
        rcases List.mem_cons.mp hm with hm | hm
        · exact hc hm.symm
        · exact hna hm

/-! ## C1: the erddap request type and dataset id columns -/

/-- C1.  The claim asserts that after parse underscore columns the
erddap request type column is null exactly when the third path segment is
not a recognized keyword, and that the dataset id column is null whenever
the request type is null.  The code violates this: the pandas astype(str)
conversion turns the missing protocol into the non-null string None, so the
when/then null guard in the source never fires.  At the concrete input
below, whose third segment wms matches no keyword, the request type column
holds the string None (non-null) and the dataset id column holds the
fourth segment sst instead of null. -/
theorem c1_requestType_stringified_dataset_id_kept :
    erddapRequestType ("/erddap/wms/sst/index.html".toList) = some ("None".toList) ∧
      erddapRequestType ("/erddap/wms/sst/index.html".toList) ≠ none ∧
      datasetId ("/erddap/wms/sst/index.html".toList) = some ("sst".toList) := by
  refine ⟨by decide, by decide, by decide⟩

/-! ## C8: the file type column -/

/-- C8 counterexample.  The claim asserts that the file type column is the
suffix after the last literal dot of the file-name component of the base
path.  On a base path with two dots the code takes the text between the
first and the second dot instead: for the url below the code yields v1
while the suffix after the last dot is csv. -/
theorem c8_counterexample_fileType_not_last_dot :
    fileType ("/erddap/files/data.v1.csv".toList) = "v1".toList ∧
      fileTypeLastDotSpec ("/erddap/files/data.v1.csv".toList) = "csv".toList ∧
      fileType ("/erddap/files/data.v1.csv".toList) ≠
        fileTypeLastDotSpec ("/erddap/files/data.v1.csv".toList) := by
  refine ⟨by decide, by decide, by decide⟩

/-- C8 amended.  For every url the file type column is determined by the
base path (the part of the space-stripped url before the first question
mark) alone: it equals the dot-free text immediately following the first
literal dot of the base path — the text strictly between the first and the
second dot when the base path holds two or more dots, the text after the
dot when it holds exactly one, and the stringified missing value None when
it holds no dot; it is not the suffix after the last dot.  The first
conjunct shows every url falls into exactly one of these three cases, so
the case hypotheses of the remaining conjuncts exclude no url. -/
theorem c8_fileType_between_first_and_second_dot :
    (∀ url : List Char,
      ('.' ∉ basePath url) ∨
      (∃ a b : List Char, basePath url = a ++ '.' :: b ∧ '.' ∉ a ∧ '.' ∉ b) ∨
      (∃ a b c : List Char,
        basePath url = a ++ '.' :: (b ++ '.' :: c) ∧ '.' ∉ a ∧ '.' ∉ b)) ∧
    (∀ url : List Char, '.' ∉ basePath url → fileType url = "None".toList) ∧
    (∀ url a b : List Char, basePath url = a ++ '.' :: b → '.' ∉ a → '.' ∉ b →
      fileType url = b) ∧
    (∀ url a b c : List Char, basePath url = a ++ '.' :: (b ++ '.' :: c) →
      '.' ∉ a → '.' ∉ b → fileType url = b) := by
  refine ⟨?_, ?_, ?_, ?_⟩
  · intro url
    by_cases hd : '.' ∈ basePath url
    · obtain ⟨a, b, heq, hna⟩ := exists_split_first '.' (basePath url) hd
      by_cases hdb : '.' ∈ b
      · obtain ⟨b1, c, heqb, hnb⟩ := exists_split_first '.' b hdb
        exact Or.inr (Or.inr ⟨a, b1, c, by rw [heq, heqb], hna, hnb⟩)
      · exact Or.inr (Or.inl ⟨a, b, heq, hna, hdb⟩)
    · exact Or.inl hd
  · intro url hd
    rw [fileType, splitOnC_no_sep '.' (basePath url) hd]
    simp [optStr]
  · intro url a b heq hda hdb
    rw [fileType, heq, splitOnC_append_sep '.' a b hda, splitOnC_no_sep '.' b hdb]
    simp [optStr]
  · intro url a b c heq hda hdb
    rw [fileType, heq, splitOnC_append_sep '.' a (b ++ '.' :: c) hda,
      splitOnC_append_sep '.' b c hdb]
    simp [optStr]

/-- C8 witness: the one-dot conjunct of the amended statement applied at
the archetypal request url with one dot in its base path followed by a
query string. -/
theorem c8_fileType_witness :
    fileType ("/erddap/tabledap/x.csv?t".toList) = "csv".toList :=
  c8_fileType_between_first_and_second_dot.2.2.1 ("/erddap/tabledap/x.csv?t".toList)
    ("/erddap/tabledap/x".toList) ("csv".toList) (by decide) (by decide) (by decide)

/-! ## C10: anonymize underscore query

The source removes email parameters from urls with a Python regex
substitution whose pattern is email= followed by a lazy run of
any-character-except-newline and a closing ampersand.  The embedding below
is a left-to-right scanner: at each position it tries the pattern (key,
then the shortest run of non-newline characters up to an ampersand,
inclusive); on a match it emits nothing and resumes after the match,
otherwise it emits one character and moves on. -/

/-- The literal key of the substitution pattern. -/
def emailKey : List Char := "email=".toList

/-- The lazy tail of the pattern: consume characters up to and including
the first ampersand; fail on a newline (the regex dot does not match a
newline) or at the end of input.  Returns the remainder after the
ampersand. -/
def lazyAmp : List Char → Option (List Char)
  | [] => none
  | c :: cs => if c = '&' then some cs else if c = '\n' then none else lazyAmp cs

/-- Whether the whole pattern matches at the head of the input; on success
returns the remainder after the match. -/
def matchHere (cs : List Char) : Option (List Char) :=
  if emailKey.isPrefixOf cs then lazyAmp (cs.drop emailKey.length) else none

theorem lazyAmp_length {l r : List Char} (h : lazyAmp l = some r) :
    r.length < l.length := by
  induction l with
  | nil => simp [lazyAmp] at h
  | cons c cs ih =>
    simp only [lazyAmp] at h
    split at h
    · cases h
      simp
    · split at h
      · cases h
      · exact Nat.lt_trans (ih h) (by simp)

theorem matchHere_length {cs r : List Char} (h : matchHere cs = some r) :
    r.length < cs.length := by
  simp only [matchHere] at h
  split at h
  · calc r.length < (cs.drop emailKey.length).length := lazyAmp_length h
      _ ≤ cs.length := by simp
  · cases h

/-- The scanner of the regex substitution itself. -/
def listSub : List Char → List Char
  | [] => []
  | c :: cs =>
    match h : matchHere (c :: cs) with
    | some rest => listSub rest
    | none => c :: listSub cs
termination_by l => l.length
decreasing_by
  · exact matchHere_length h
  · simp

/-- The anonymize underscore query transformation on one url. -/
def anonymizeQuery (s : String) : String := String.mk (listSub s.toList)

theorem matchHere_nil : matchHere [] = none := by decide

@[simp] theorem listSub_nil : listSub [] = [] := by rw [listSub]

theorem listSub_matchHere {cs rest : List Char} (h : matchHere cs = some rest) :
    listSub cs = listSub rest := by
  cases cs with
  | nil => rw [matchHere_nil] at h; cases h
  | cons c cs' => rw [listSub, h]

theorem listSub_no_match_head {c : Char} {cs : List Char}
    (h : matchHere (c :: cs) = none) : listSub (c :: cs) = c :: listSub cs := by
  rw [listSub, h]

theorem lazyAmp_amp_mem {l r : List Char} (h : lazyAmp l = some r) : '&' ∈ l := by
  induction l with
  | nil => simp [lazyAmp] at h
  | cons c cs ih =>
    simp only [lazyAmp] at h
    split at h
    · rename_i hc
      exact hc ▸ List.mem_cons_self c cs
    · split at h
      · cases h
      · exact List.mem_cons_of_mem c (ih h)

theorem matchHere_amp_mem {cs r : List Char} (h : matchHere cs = some r) :
    '&' ∈ cs := by
  simp only [matchHere] at h
  split at h
  · exact List.mem_of_mem_drop (lazyAmp_amp_mem h)
  · cases h

/-- If a string holds no ampersand the substitution leaves it unchanged. -/
theorem listSub_amp_free (l : List Char) (h : '&' ∉ l) : listSub l = l := by
  induction l with
  | nil => simp
  | cons c cs ih =>
    have hm : matchHere (c :: cs) = none := by
      cases hmm : matchHere (c :: cs) with
      | none => rfl
      | some r => exact absurd (matchHere_amp_mem hmm) h
    rw [listSub_no_match_head hm, ih (fun hmem => h (List.mem_cons_of_mem c hmem))]

theorem lazyAmp_through (mid post : List Char) (hamp : '&' ∉ mid)
    (hnl : '\n' ∉ mid) : lazyAmp (mid ++ '&' :: post) = some post := by
  induction mid with
  | nil => simp [lazyAmp]
  | cons c cs ih =>
    have hc : c ≠ '&' := fun he => hamp (he ▸ List.mem_cons_self c cs)
    have hn : c ≠ '\n' := fun he => hnl (he ▸ List.mem_cons_self c cs)
    simp only [List.cons_append, lazyAmp, if_neg hc, if_neg hn]
    exact ih (fun hm => hamp (List.mem_cons_of_mem c hm))
      (fun hm => hnl (List.mem_cons_of_mem c hm))

theorem matchHere_at_key (mid post : List Char) (hamp : '&' ∉ mid)
    (hnl : '\n' ∉ mid) :
    matchHere (emailKey ++ (mid ++ '&' :: post)) = some post := by
  have hpre : emailKey.isPrefixOf (emailKey ++ (mid ++ '&' :: post)) = true := by
    rw [List.isPrefixOf_iff_prefix]
    exact ⟨mid ++ '&' :: post, rfl⟩
  rw [matchHere, if_pos hpre, List.drop_left, lazyAmp_through mid post hamp hnl]

theorem lazyAmp_inv {l r : List Char} (h : lazyAmp l = some r) :
    ∃ mid : List Char, l = mid ++ '&' :: r ∧ '&' ∉ mid ∧ '\n' ∉ mid := by
  induction l with
  | nil => simp [lazyAmp] at h
  | cons c cs ih =>
    simp only [lazyAmp] at h
    split at h
    · rename_i hc
      cases h
      exact ⟨[], by simp [hc], by simp, by simp⟩
    · split at h
      · cases h
      · rename_i hc hn
        obtain ⟨mid, heq, hamp, hnl⟩ := ih h
        refine ⟨c :: mid, by simp [heq], ?_, ?_⟩
        · intro hm
          rcases List.mem_cons.mp hm with hm | hm
          · exact hc hm.symm
          · exact hamp hm
        · intro hm
          rcases List.mem_cons.mp hm with hm | hm
          · exact hn hm.symm
          · exact hnl hm

theorem matchHere_inv {cs r : List Char} (h : matchHere cs = some r) :
    ∃ mid : List Char,
      cs = emailKey ++ (mid ++ '&' :: r) ∧ '&' ∉ mid ∧ '\n' ∉ mid := by
  simp only [matchHere] at h
  split at h
  · rename_i hpre
    rw [List.isPrefixOf_iff_prefix] at hpre
    obtain ⟨t, ht⟩ := hpre
    subst ht
    rw [List.drop_left] at h
    obtain ⟨mid, heq, hamp, hnl⟩ := lazyAmp_inv h
    exact ⟨mid, by rw [heq], hamp, hnl⟩
  · cases h

/-- A complete, declaratively phrased match of the substitution pattern
starting at position i of s: the key, then an ampersand-free and
newline-free middle, then the closing ampersand. -/
def MatchAt (s : List Char) (i : Nat) : Prop :=
  ∃ mid post : List Char,
    s.drop i = emailKey ++ (mid ++ '&' :: post) ∧ '&' ∉ mid ∧ '\n' ∉ mid

theorem matchAt_iff (s : List Char) (i : Nat) :
    MatchAt s i ↔ matchHere (s.drop i) ≠ none := by
  constructor
  · rintro ⟨mid, post, hdec, hamp, hnl⟩
    rw [hdec, matchHere_at_key mid post hamp hnl]
    simp
  · intro h
    cases hm : matchHere (s.drop i) with
    | none => exact absurd hm h
    | some r =>
      obtain ⟨mid, heq, hamp, hnl⟩ := matchHere_inv hm
      exact ⟨mid, r, heq, hamp, hnl⟩

instance (s : List Char) (i : Nat) : Decidable (MatchAt s i) :=
  decidable_of_iff (matchHere (s.drop i) ≠ none) (matchAt_iff s i).symm

theorem matchAt_cons_succ (c : Char) (t : List Char) (i : Nat) :
    MatchAt (c :: t) (i + 1) ↔ MatchAt t i := by
  simp [MatchAt, List.drop_succ_cons]

/-- No complete match of the pattern begins before position n of s. -/
def matchFreeBefore (s : List Char) (n : Nat) : Prop :=
  ∀ i < n, ¬ MatchAt s i

instance (s : List Char) (n : Nat) : Decidable (matchFreeBefore s n) :=
  Nat.decidableBallLT n (fun i _ => ¬ MatchAt s i)

/-- Characters at positions where no complete match begins are emitted
verbatim by the scanner. -/
theorem listSub_append_matchFree (pre rest : List Char)
    (h : matchFreeBefore (pre ++ rest) pre.length) :
    listSub (pre ++ rest) = pre ++ listSub rest := by
  induction pre with
  | nil => simp
  | cons c pre' ih =>
    have h0 : matchHere (c :: (pre' ++ rest)) = none := by
      have hna : ¬ MatchAt (c :: (pre' ++ rest)) 0 := by
        have := h 0 (by simp)
        simpa using this
      rw [matchAt_iff] at hna
      simpa using hna
    have hshift : matchFreeBefore (pre' ++ rest) pre'.length := by
      intro i hi hm
      exact h (i + 1) (by simpa using Nat.succ_lt_succ hi)
        ((matchAt_cons_succ c (pre' ++ rest) i).mpr hm)
    simpa using (listSub_no_match_head h0).trans (congrArg (c :: ·) (ih hshift))

theorem listSub_length_le (l : List Char) : (listSub l).length ≤ l.length := by
  induction l using listSub.induct with
  | case1 => simp
  | case2 c cs rest h ih =>
    rw [listSub_matchHere h]
    exact le_trans ih (le_of_lt (matchHere_length h))
  | case3 c cs h ih =>
    rw [listSub_no_match_head h]
    simpa using ih

theorem listSub_lt_of_match (l : List Char) :
    ∀ i : Nat, matchHere (l.drop i) ≠ none → (listSub l).length < l.length := by
  induction l using listSub.induct with
  | case1 =>
    intro i h
    simp only [List.drop_nil] at h
    exact absurd matchHere_nil h
  | case2 c cs rest h ih =>
    intro i hi
    rw [listSub_matchHere h]
    exact lt_of_le_of_lt (listSub_length_le rest) (matchHere_length h)
  | case3 c cs h ih =>
    intro i hi
    cases i with
    | zero => exact absurd h (by simpa using hi)
    | succ j =>
      rw [listSub_no_match_head h]
      have := ih j (by simpa [List.drop_succ_cons] using hi)
      simpa using Nat.succ_lt_succ this

/-- If no complete match begins anywhere below the length of l, the
scanner returns l unchanged. -/
theorem listSub_eq_self_of_no_match (l : List Char)
    (h : ∀ i < l.length, matchHere (l.drop i) = none) : listSub l = l := by
  induction l with
  | nil => simp
  | cons c cs ih =>
    have h0 : matchHere (c :: cs) = none := by
      have := h 0 (by simp)
      simpa using this
    rw [listSub_no_match_head h0, ih (fun i hi => by
      have := h (i + 1) (by simpa using Nat.succ_lt_succ hi)
      simpa using this)]

/-- The scanner leaves a string unchanged exactly when no complete match
occurs in it. -/
theorem listSub_eq_self_iff (s : List Char) :
    listSub s = s ↔ ∀ i : Nat, ¬ MatchAt s i := by
  constructor
  · intro he i hm
    have hne := (matchAt_iff s i).mp hm
    have hlt := listSub_lt_of_match s i hne
    rw [he] at hlt
    exact lt_irrefl _ hlt
  · intro h
    apply listSub_eq_self_of_no_match
    intro i _
    exact not_ne_iff.mp (fun hne => h i ((matchAt_iff s i).mpr hne))

/-- C10 amended.  The substitution removes exactly the non-overlapping,
left-to-right complete matches: the key email= followed by the shortest
newline-free run up to and including the next ampersand; a key whose run
to an ampersand is blocked by a newline, or that is followed by no
ampersand at all, never matches and its text survives.  Part one: at the
leftmost complete match the whole match is deleted and scanning resumes
after it, while characters at earlier positions (where no complete match
begins — even if a blocked key sits there) are emitted verbatim.  Part
two: a trailing email parameter with no later ampersand survives
unchanged.  Part three, with no hypotheses: a url is returned unchanged
exactly when no complete match occurs in it — in particular a url whose
every key is newline-blocked or ampersand-less is unchanged. -/
theorem c10_email_substitution :
    (∀ pre mid post : List Char,
      matchFreeBefore (pre ++ (emailKey ++ (mid ++ '&' :: post))) pre.length →
      '&' ∉ mid → '\n' ∉ mid →
      listSub (pre ++ (emailKey ++ (mid ++ '&' :: post))) = pre ++ listSub post) ∧
    (∀ pre mid : List Char,
      matchFreeBefore (pre ++ (emailKey ++ mid)) pre.length → '&' ∉ mid →
      listSub (pre ++ (emailKey ++ mid)) = pre ++ (emailKey ++ mid)) ∧
    (∀ s : List Char, listSub s = s ↔ ∀ i : Nat, ¬ MatchAt s i) := by
  refine ⟨?_, ?_, listSub_eq_self_iff⟩
  · intro pre mid post hfree hamp hnl
    rw [listSub_append_matchFree pre _ hfree,
      listSub_matchHere (matchHere_at_key mid post hamp hnl)]
  · intro pre mid hfree hamp
    rw [listSub_append_matchFree pre _ hfree]
    have : '&' ∉ emailKey ++ mid := by
      intro hm
      rcases List.mem_append.mp hm with hm | hm
      · exact absurd hm (by decide)
      · exact hamp hm
    rw [listSub_amp_free _ this]

/-- C10 witness: the first part of the amended statement applied at the
concrete url email=(newline)email=x&y, whose leading key is blocked by the
newline and survives while the second, complete match is removed. -/
theorem c10_email_substitution_witness :
    listSub (("email=\n".toList) ++ (emailKey ++ (("x".toList) ++ '&' :: ("y".toList))))
      = ("email=\n".toList) ++ listSub ("y".toList) :=
  c10_email_substitution.1 ("email=\n".toList) ("x".toList) ("y".toList)
    (by decide) (by decide) (by decide)

/-- C10 counterexample.  The claim as stated says the substring from
email= through the next ampersand is always removed; when a newline stands
between them the regex dot cannot cross it and the url is left whole, so
for the input below the claim would demand the output x while the code
returns the input unchanged. -/
theorem c10_counterexample_newline_blocks_match :
    anonymizeQuery "email=\n&x" = "email=\n&x" ∧ anonymizeQuery "email=\n&x" ≠ "x" := by
  have hs : anonymizeQuery "email=\n&x" = "email=\n&x" := by
    show String.mk (listSub ("email=\n&x".toList)) = _
    rw [listSub_eq_self_of_no_match ("email=\n&x".toList) (by decide)]
    rfl
  exact ⟨hs, by rw [hs]; decide⟩

/-! ## The IP-enrichment cache and lookup loop (underscore-get-ip-info)

One row of the persistent cache.  The diagonal concat in the source lets a
lookup payload miss any column, so every field is an Option; a csv value or
a present JSON field is some.  Numeric payload cells (lat, lon) are carried
opaquely as text. -/

structure IpRow where
  status : Option String
  country : Option String
  countryCode : Option String
  region : Option String
  regionName : Option String
  city : Option String
  zipc : Option String
  lat : Option String
  lon : Option String
  timezone : Option String
  isp : Option String
  org : Option String
  asn : Option String
  query : Option String
deriving DecidableEq, Repr

/-- The single placeholder row that underscore-get-ip-info builds when the
cache file does not exist: every text column an empty string, lat and lon
zero. -/
def emptyIpRow : IpRow :=
  { status := some "", country := some "", countryCode := some "",
    region := some "", regionName := some "", city := some "",
    zipc := some "", lat := some "0.0", lon := some "0.0",
    timezone := some "", isp := some "", org := some "",
    asn := some "", query := some "" }

/-- One response of the external lookup service: the HTTP status code and,
when the body can be merged into the cache frame, the resulting row.  A
none payload models a body whose diagonal concat raises a schema or shape
error and is skipped. -/
structure Resp where
  status : Nat
  payload : Option IpRow

/-- Counter(df.ip).most common: each distinct ip paired with its request
count, sorted by count descending. -/
def mostCommon (ips : List String) : List (String × Nat) :=
  List.insertionSort (fun a b => b.2 ≤ a.2)
    (ips.dedup.map (fun ip => (ip, ips.count ip)))

/-- The fetch loop of underscore-get-ip-info.  Walks the ranked candidates;
a candidate already present in the cache (its ip equals some query cell) is
skipped; once the fetch counter has reached the budget the loop breaks; an
HTTP 429 response breaks the loop after counting that fetch; any other
response is merged when its payload is well formed and skipped otherwise.
Returns the final cache rows and the list of candidates for which an
external request was actually issued, in order. -/
def fetchLoop (oracle : String → Resp) (budget : Nat) :
    List (String × Nat) → List IpRow → Nat → List IpRow × List (String × Nat)
  | [], dfIp, _ => (dfIp, [])
  | (ip, cnt) :: rest, dfIp, fetched =>
    if dfIp.any (fun row => row.query = some ip) then
      fetchLoop oracle budget rest dfIp fetched
    else if budget ≤ fetched then
      (dfIp, [])
    else if (oracle ip).status = 429 then
      (dfIp, [(ip, cnt)])
    else
      ((fetchLoop oracle budget rest (dfIp ++ (oracle ip).payload.toList) (fetched + 1)).1,
        (ip, cnt) ::
          (fetchLoop oracle budget rest (dfIp ++ (oracle ip).payload.toList) (fetched + 1)).2)

/-- The outcome of one call of underscore-get-ip-info: the returned cache
frame, the externally fetched candidates in order, and the rows written
back to the cache file (the write happens unconditionally at the end). -/
structure CoreOut where
  dfIp : List IpRow
  attempted : List (String × Nat)
  persisted : List IpRow

/-- underscore-get-ip-info.  cacheFile is the parsed content of the cache
csv when that file exists; the oracle stands for the external lookup
service. -/
def getIpInfoCore (ips : List String) (cacheFile : Option (List IpRow))
    (downloadNew : Bool) (numNewIps : Nat) (oracle : String → Resp) : CoreOut :=
  let init := cacheFile.getD [emptyIpRow]
  let res := if downloadNew then fetchLoop oracle numNewIps (mostCommon ips) init 0
    else (init, [])
  { dfIp := res.1, attempted := res.2, persisted := res.1 }

theorem fetchLoop_length_le (oracle : String → Resp) (budget : Nat) :
    ∀ (cands : List (String × Nat)) (dfIp : List IpRow) (fetched : Nat),
      fetched ≤ budget →
      (fetchLoop oracle budget cands dfIp fetched).2.length ≤ budget - fetched := by
  intro cands
  induction cands with
  | nil => intro dfIp fetched _; simp [fetchLoop]
  | cons p rest ih =>
    intro dfIp fetched hle
    obtain ⟨ip, cnt⟩ := p
    simp only [fetchLoop]
    split
    · exact ih dfIp fetched hle
    · split
      · simp
      · rename_i hbudget
        have hlt : fetched < budget := Nat.lt_of_not_le hbudget
        split
        · simp [Nat.le_sub_of_add_le, Nat.succ_le_of_lt hlt]
          omega
        · simp only [List.length_cons]
          have := ih (dfIp ++ (oracle ip).payload.toList) (fetched + 1)
            (Nat.succ_le_of_lt hlt)
          omega

theorem fetchLoop_sublist (oracle : String → Resp) (budget : Nat) :
    ∀ (cands : List (String × Nat)) (dfIp : List IpRow) (fetched : Nat),
      List.Sublist (fetchLoop oracle budget cands dfIp fetched).2 cands := by
  intro cands
  induction cands with
  | nil => intro dfIp fetched; simp [fetchLoop]
  | cons p rest ih =>
    intro dfIp fetched
    obtain ⟨ip, cnt⟩ := p
    simp only [fetchLoop]
    split
    · exact List.Sublist.cons (ip, cnt) (ih dfIp fetched)
    · split
      · simp
      · split
        · simp
        · exact List.Sublist.cons₂ (ip, cnt)
            (ih (dfIp ++ (oracle ip).payload.toList) (fetched + 1))

theorem mostCommon_pairwise (ips : List String) :
    (mostCommon ips).Pairwise (fun a b => b.2 ≤ a.2) := by
  haveI : IsTotal (String × Nat) (fun a b => b.2 ≤ a.2) :=
    ⟨fun a b => Nat.le_total b.2 a.2⟩
  haveI : IsTrans (String × Nat) (fun a b => b.2 ≤ a.2) :=
    ⟨fun _ _ _ h1 h2 => le_trans h2 h1⟩
  exact List.sorted_insertionSort _ _

theorem mostCommon_counts (ips : List String) (p : String × Nat)
    (h : p ∈ mostCommon ips) : p.2 = ips.count p.1 := by
  have hperm := List.perm_insertionSort (fun a b : String × Nat => b.2 ≤ a.2)
    (ips.dedup.map (fun ip => (ip, ips.count ip)))
  have hmem : p ∈ ips.dedup.map (fun ip => (ip, ips.count ip)) := hperm.mem_iff.mp h
  obtain ⟨ip, _, hip⟩ := List.mem_map.mp hmem
  rw [← hip]

/-- C2.  One enrichment call issues at most numNewIps external lookups no
matter how many uncached ips the table holds, the candidates actually
fetched are attempted in descending order of request count, and the count
attached to each attempted candidate is its true request frequency in the
table. -/
theorem c2_fetch_budget_and_order (ips : List String)
    (cacheFile : Option (List IpRow)) (downloadNew : Bool) (numNewIps : Nat)
    (oracle : String → Resp) :
    (getIpInfoCore ips cacheFile downloadNew numNewIps oracle).attempted.length
        ≤ numNewIps ∧
    (getIpInfoCore ips cacheFile downloadNew numNewIps oracle).attempted.Pairwise
        (fun a b => b.2 ≤ a.2) ∧
    ∀ p ∈ (getIpInfoCore ips cacheFile downloadNew numNewIps oracle).attempted,
        p.2 = ips.count p.1 := by
  simp only [getIpInfoCore]
  split
  · refine ⟨?_, ?_, ?_⟩
    · simpa using fetchLoop_length_le oracle numNewIps (mostCommon ips)
        (cacheFile.getD [emptyIpRow]) 0 (Nat.zero_le _)
    · exact (mostCommon_pairwise ips).sublist
        (fetchLoop_sublist oracle numNewIps (mostCommon ips)
          (cacheFile.getD [emptyIpRow]) 0)
    · intro p hp
      exact mostCommon_counts ips p
        ((fetchLoop_sublist oracle numNewIps (mostCommon ips)
          (cacheFile.getD [emptyIpRow]) 0).subset hp)
  · simp

theorem getLast?_cons_ne_nil {α : Type} (a : α) {l : List α} (h : l ≠ []) :
    (a :: l).getLast? = l.getLast? := by
  cases l with
  | nil => exact absurd rfl h
  | cons b t => simp [List.getLast?]

theorem fetchLoop_429_last (oracle : String → Resp) (budget : Nat) :
    ∀ (cands : List (String × Nat)) (dfIp : List IpRow) (fetched : Nat)
      (p : String × Nat),
      p ∈ (fetchLoop oracle budget cands dfIp fetched).2 →
      (oracle p.1).status = 429 →
      (fetchLoop oracle budget cands dfIp fetched).2.getLast? = some p := by
  intro cands
  induction cands with
  | nil => intro dfIp fetched p hp _; simp [fetchLoop] at hp
  | cons q rest ih =>
    intro dfIp fetched p hp h429
    obtain ⟨ip, cnt⟩ := q
    rw [fetchLoop] at hp ⊢
    split at hp
    · rename_i h1
      rw [if_pos h1]
      exact ih dfIp fetched p hp h429
    · rename_i h1
      rw [if_neg h1]
      split at hp
      · simp at hp
      · rename_i h2
        rw [if_neg h2]
        split at hp
        · rename_i h3
          rw [if_pos h3]
          simp only [List.mem_singleton] at hp
          simp [hp]
        · rename_i h3
          rw [if_neg h3]
          rcases List.mem_cons.mp hp with hp | hp
          · exact absurd (hp ▸ h429) (by simpa using h3)
          · have htail := ih (dfIp ++ (oracle ip).payload.toList) (fetched + 1) p hp h429
            rw [getLast?_cons_ne_nil _ (List.ne_nil_of_mem hp)]
            exact htail

theorem fetchLoop_429_rows (oracle : String → Resp) (budget : Nat) :
    ∀ (cands : List (String × Nat)) (dfIp : List IpRow) (fetched : Nat),
      (∃ p ∈ (fetchLoop oracle budget cands dfIp fetched).2,
        (oracle p.1).status = 429) →
      (fetchLoop oracle budget cands dfIp fetched).1 =
        dfIp ++ (fetchLoop oracle budget cands dfIp fetched).2.dropLast.filterMap
          (fun q => (oracle q.1).payload) := by
  intro cands
  induction cands with
  | nil => intro dfIp fetched h; simp [fetchLoop] at h
  | cons q rest ih =>
    intro dfIp fetched h
    obtain ⟨ip, cnt⟩ := q
    rw [fetchLoop] at h ⊢
    split at h
    · rename_i h1
      rw [if_pos h1]
      exact ih dfIp fetched h
    · rename_i h1
      rw [if_neg h1]
      split at h
      · simp at h
      · rename_i h2
        rw [if_neg h2]
        split at h
        · rename_i h3
          rw [if_pos h3]
          simp
        · rename_i h3
          rw [if_neg h3]
          obtain ⟨p, hp, hp429⟩ := h
          rcases List.mem_cons.mp hp with hp | hp
          · exact absurd (hp ▸ hp429) (by simpa using h3)
          · have hne : (fetchLoop oracle budget rest
                (dfIp ++ (oracle ip).payload.toList) (fetched + 1)).2 ≠ [] :=
              List.ne_nil_of_mem hp
            have hrec := ih (dfIp ++ (oracle ip).payload.toList) (fetched + 1)
              ⟨p, hp, hp429⟩
            rw [List.dropLast_cons_of_ne_nil hne, List.filterMap_cons]
            cases hpay : (oracle ip).payload with
            | none => simpa [hpay] using hrec
            | some row => simpa [hpay] using hrec

/-- C6.  If during one enrichment run some externally fetched candidate
receives the rate-limit signal (HTTP status 429), then that candidate is
the last fetch of the run (no further external requests are issued), the
returned cache frame consists of the initial cache rows followed by
exactly the well-formed payloads of the earlier fetches of this run, and
that frame is what is written back to the cache file; the call returns
this outcome normally, as a total function. -/
theorem c6_rate_limit_halts_and_preserves (ips : List String)
    (cacheFile : Option (List IpRow)) (downloadNew : Bool) (numNewIps : Nat)
    (oracle : String → Resp) (p : String × Nat)
    (hp : p ∈ (getIpInfoCore ips cacheFile downloadNew numNewIps oracle).attempted)
    (h429 : (oracle p.1).status = 429) :
    (getIpInfoCore ips cacheFile downloadNew numNewIps oracle).attempted.getLast?
        = some p ∧
    (getIpInfoCore ips cacheFile downloadNew numNewIps oracle).dfIp =
      cacheFile.getD [emptyIpRow] ++
        (getIpInfoCore ips cacheFile downloadNew numNewIps
          oracle).attempted.dropLast.filterMap (fun q => (oracle q.1).payload) ∧
    (getIpInfoCore ips cacheFile downloadNew numNewIps oracle).persisted =
      (getIpInfoCore ips cacheFile downloadNew numNewIps oracle).dfIp := by
  simp only [getIpInfoCore] at hp ⊢
  split at hp
  · rename_i hdl
    rw [if_pos hdl]
    refine ⟨fetchLoop_429_last oracle numNewIps (mostCommon ips)
      (cacheFile.getD [emptyIpRow]) 0 p hp h429, ?_, by trivial⟩
    exact fetchLoop_429_rows oracle numNewIps (mostCommon ips)
      (cacheFile.getD [emptyIpRow]) 0 ⟨p, hp, h429⟩
  · simp at hp

/-- A concrete enrichment run used by the C6 witness: the first candidate
succeeds and the second is rate limited. -/
def sampleOracle : String → Resp := fun ip =>
  if ip = "2.2.2.2" then { status := 429, payload := none }
  else { status := 200, payload := some { emptyIpRow with query := some ip } }

/-- C6 witness: the theorem applied to a concrete run over the ip column
1.1.1.1, 1.1.1.1, 2.2.2.2 with no pre-existing cache file, where the
lookup of 2.2.2.2 answers 429. -/
theorem c6_witness :
    (getIpInfoCore ["1.1.1.1", "1.1.1.1", "2.2.2.2"] none true 60
        sampleOracle).attempted.getLast? = some ("2.2.2.2", 1) ∧
    (getIpInfoCore ["1.1.1.1", "1.1.1.1", "2.2.2.2"] none true 60
        sampleOracle).dfIp =
      (none : Option (List IpRow)).getD [emptyIpRow] ++
        (getIpInfoCore ["1.1.1.1", "1.1.1.1", "2.2.2.2"] none true 60
          sampleOracle).attempted.dropLast.filterMap
            (fun q => (sampleOracle q.1).payload) ∧
    (getIpInfoCore ["1.1.1.1", "1.1.1.1", "2.2.2.2"] none true 60
        sampleOracle).persisted =
      (getIpInfoCore ["1.1.1.1", "1.1.1.1", "2.2.2.2"] none true 60
        sampleOracle).dfIp :=
  c6_rate_limit_halts_and_preserves ["1.1.1.1", "1.1.1.1", "2.2.2.2"] none true 60
    sampleOracle ("2.2.2.2", 1) (by decide) (by decide)

/-! ## C7: anonymize underscore ip

The source builds a one-column frame of the distinct ip values with a row
index and replaces every ip cell by the index of the row whose ip equals
it.  The embedding keeps the distinct values as a deduplicated list, so the
replacement of one ip is its position in that list. -/

/-- The distinct ip values of the anonymized frame (the unique call). -/
def uniqueIps (ips : List String) : List String := ips.dedup

/-- The integer identifier an ip receives: the row index of that ip in the
unique frame. -/
def ipIndex (ips : List String) (ip : String) : Nat := (uniqueIps ips).indexOf ip

/-- The anonymized ip column: every cell replaced by its identifier. -/
def anonIpColumn (ips : List String) : List Nat := ips.map (ipIndex ips)

/-- C7.  Within one anonymization pass the ip-to-integer replacement used
to build anonIpColumn is injective on the ip values present: two cells
receive the same identifier exactly when they hold the same ip; in
particular distinct ips never share an identifier and every occurrence of
one ip receives the same identifier. -/
theorem c7_anonymize_ip_injective (ips : List String) (a b : String)
    (ha : a ∈ ips) (hb : b ∈ ips) :
    ipIndex ips a = ipIndex ips b ↔ a = b := by
  exact List.indexOf_inj (List.mem_dedup.mpr ha) (List.mem_dedup.mpr hb)

/-- C7 witness: the theorem applied at a concrete ip column with a repeated
ip; the two distinct ips receive distinct identifiers. -/
theorem c7_witness :
    (ipIndex ["10.0.0.1", "10.0.0.2", "10.0.0.1"] "10.0.0.1" =
        ipIndex ["10.0.0.1", "10.0.0.2", "10.0.0.1"] "10.0.0.2" ↔
      "10.0.0.1" = "10.0.0.2") :=
  c7_anonymize_ip_injective ["10.0.0.1", "10.0.0.2", "10.0.0.1"]
    "10.0.0.1" "10.0.0.2" (by decide) (by decide)

/-! ## The request table: one canonical request record and the frame

One parsed request record.  The geo fields are filled by the enrichment
join; freshly parsed rows carry none there. -/

structure Row where
  ip : String
  datetime : Nat
  url : String
  userAgent : String
  statusCode : Int
  bytesSent : Int
  referer : String
  org : Option String
  isp : Option String
  country : Option String
deriving DecidableEq, Repr

/-- The in-memory frame: its column names and its rows. -/
structure DF where
  cols : List String
  rows : List Row
deriving DecidableEq, Repr

/-- The seven columns produced by both log loaders. -/
def baseCols : List String :=
  ["ip", "datetime", "url", "user-agent", "status-code", "bytes-sent", "referer"]

/-- Stable sort of the rows by the datetime column, ascending. -/
def sortByDatetime (rows : List Row) : List Row :=
  List.insertionSort (fun a b => a.datetime ≤ b.datetime) rows

/-- The contract polars documents for DataFrame.unique on all columns
without maintain-order: the result holds every distinct row of the input
exactly once, in an order the library does not specify.  Any function
satisfying this predicate is an admissible behaviour of the unique call. -/
def IsUniqueImpl (u : List Row → List Row) : Prop :=
  ∀ rows : List Row, (u rows).Nodup ∧ ∀ r : Row, r ∈ u rows ↔ r ∈ rows

/-- One admissible behaviour of the unique call (order-preserving
deduplication), used only to keep the session model executable; facts that
depend on the row order after unique must be proved against IsUniqueImpl,
not against this particular choice. -/
def uniqueRows (rows : List Row) : List Row := rows.dedup

theorem uniqueRows_admissible : IsUniqueImpl uniqueRows :=
  fun rows => ⟨List.nodup_dedup rows, fun _ => List.mem_dedup⟩

/-- Another admissible behaviour of the unique call: the same distinct
rows, returned in reversed order.  polars promises nothing that rules this
out when maintain-order is off. -/
def reverseDedup (rows : List Row) : List Row := rows.dedup.reverse

theorem reverseDedup_admissible : IsUniqueImpl reverseDedup := by
  intro rows
  constructor
  · exact List.nodup_reverse.mpr (List.nodup_dedup rows)
  · intro r
    rw [reverseDedup, List.mem_reverse, List.mem_dedup]

/-- The merge performed by load underscore apache underscore logs and load
underscore nginx underscore logs, parametric in the behaviour of the
unique call: concatenate the current rows with the new batch, sort by
datetime, then apply unique.  Note the source applies unique AFTER the
sort, with maintain-order left at its default of false. -/
def mergeLogsWith (u : List Row → List Row) (old new : List Row) : List Row :=
  u (sortByDatetime (old ++ new))

/-- The executable instance of the merge used by the session model. -/
def mergeLogs (old new : List Row) : List Row := mergeLogsWith uniqueRows old new

/-- The duplicate-removal half of the merge contract holds for every
admissible behaviour of the unique call. -/
theorem mergeLogsWith_nodup (u : List Row → List Row) (hu : IsUniqueImpl u)
    (old new : List Row) : (mergeLogsWith u old new).Nodup :=
  (hu (sortByDatetime (old ++ new))).1

/-- A row with the earlier timestamp, for the C5 demonstration. -/
def rowEarly : Row :=
  { ip := "10.0.0.1", datetime := 1, url := "/erddap/index.html",
    userAgent := "curl/8", statusCode := 200, bytesSent := 10,
    referer := "-", org := none, isp := none, country := none }

/-- A distinct row with the later timestamp, for the C5 demonstration. -/
def rowLate : Row :=
  { ip := "10.0.0.2", datetime := 2, url := "/erddap/tabledap/x.csv",
    userAgent := "curl/8", statusCode := 200, bytesSent := 20,
    referer := "-", org := none, isp := none, country := none }

/-- C5.  The claim says the merge yields a table with no two rows equal on
all fields AND sorted ascending by timestamp.  Duplicate removal does
hold (mergeLogsWith-nodup above, for every admissible unique behaviour),
but sortedness is not ensured by the code: the source sorts BEFORE calling
unique and leaves maintain-order at false, and polars does not guarantee
the output order of unique.  Below, an admissible behaviour of unique
(reverseDedup) applied to two single-row batches yields a merged table
that is duplicate-free yet not sorted ascending by datetime.  The sort
call immediately before unique shows sorted output was the intent; the
slip is omitting maintain-order (or a sort after unique). -/
theorem c5_unique_order_breaks_sort :
    IsUniqueImpl reverseDedup ∧
      (mergeLogsWith reverseDedup [rowEarly] [rowLate]).Nodup ∧
      ¬ (mergeLogsWith reverseDedup [rowEarly] [rowLate]).Pairwise
          (fun a b => a.datetime ≤ b.datetime) :=
  ⟨reverseDedup_admissible, by decide, by decide⟩

/-! ## The ErddapLogParser session object -/

structure State where
  df : DF
  ip : List IpRow
  dfXml : List (String × Option String)
  verbose : Bool
  originalTotal : Nat
  filterName : Option String
  unfiltered : Option DF
deriving DecidableEq, Repr

/-- The freshly constructed parser: empty frames, verbosity off, zero
original-total count, no filter name; the unfiltered snapshot attribute
does not exist yet. -/
def initState : State :=
  { df := { cols := [], rows := [] }, ip := [], dfXml := [], verbose := false,
    originalTotal := 0, filterName := none, unfiltered := none }

/-- underscore-update-original-total-requests: record the current row count
as the original total and snapshot the current frame as the unfiltered
frame.  This is the load/subset checkpoint. -/
def updateOriginalTotalRequests (s : State) : State :=
  { s with originalTotal := s.df.rows.length, unfiltered := some s.df }

/-- load underscore apache underscore logs / load underscore nginx
underscore logs after parsing: merge the new batch into the frame and
re-establish the checkpoint. -/
def loadLogs (s : State) (newRows : List Row) : State :=
  updateOriginalTotalRequests
    { s with df := { cols := baseCols, rows := mergeLogs s.df.rows newRows } }

/-- gather underscore every: every n-th row starting at the first. -/
def gatherEvery (n : Nat) (rows : List Row) : List Row :=
  (rows.enum.filter (fun p => p.1 % n == 0)).map (fun p => p.2)

/-- subset underscore df: retain every stride-th row (stride is the integer
quotient of the row count by the requested size) and re-establish the
checkpoint.  polars rejects a zero stride, which the embedding surfaces as
an error. -/
def subsetDf (s : State) (n : Nat) : Except String State :=
  if s.df.rows.length / n = 0 then .error "gather_every: zero stride"
  else
    .ok (updateOriginalTotalRequests
      { s with df := { cols := s.df.cols,
                       rows := gatherEvery (s.df.rows.length / n) s.df.rows } })

/-- Substring test on strings, used for the url and organisation filters. -/
def strContains (s pat : String) : Bool := decide (pat.toList <:+: s.toList)

/-- Lower-casing, modelling the case-insensitive regex flag of the
organisation filter. -/
def lowerStr (s : String) : String := String.mk (s.toList.map Char.toLower)

/-- Case-insensitive substring test. -/
def strContainsCI (s pat : String) : Bool := strContains (lowerStr s) (lowerStr pat)

/-- fill underscore null on the org and isp columns of one row. -/
def fillNullOrgIsp (r : Row) : Row :=
  { r with org := some (r.org.getD "unknown"), isp := some (r.isp.getD "unknown") }

/-- One invocation of a filter method of ErddapLogParser, with the
argument values it was called with.  The user-agent bot classifier is an
external capability and is carried as a function. -/
inductive FilterStep where
  | nonErddap : FilterStep
  | organisations : List String → FilterStep
  | userAgents : (String → Bool) → FilterStep
  | locales : List String → FilterStep
  | spam : List String → FilterStep
  | files : FilterStep
  | commonStrings : List String → FilterStep

/-- The body of each filter method (without the statistics decorator),
translated from the source.  Only the organisations filter can raise: it
demands that enrichment has added the org column. -/
def runFilterBody (f : FilterStep) (s : State) : Except String State :=
  match f with
  | .nonErddap =>
    .ok { s with filterName := some "non erddap",
                 df := { cols := s.df.cols,
                         rows := s.df.rows.filter (fun r => strContains r.url "erddap") } }
  | .organisations orgs =>
    if "org" ∈ s.df.cols then
      .ok { s with filterName := some "organisations",
                   df := { cols := s.df.cols,
                           rows := orgs.foldl
                             (fun acc blockOrg =>
                               (acc.filter
                                 (fun r => !(strContainsCI (r.org.getD "") blockOrg))).filter
                                 (fun r => !(strContainsCI (r.isp.getD "") blockOrg)))
                             (s.df.rows.map fillNullOrgIsp) } }
    else
      .error "ValueError: Organisation information not present in DataFrame."
  | .userAgents isBot =>
    .ok { s with filterName := some "user agents",
                 df := { cols := s.df.cols,
                         rows := s.df.rows.filter (fun r => !(isBot r.userAgent)) } }
  | .locales ls =>
    .ok { s with filterName := some "locales",
                 df := { cols := s.df.cols,
                         rows := ls.foldl
                           (fun acc loc => acc.filter (fun r => !(strContains r.url loc)))
                           s.df.rows } }
  | .spam spamStrings =>
    .ok { s with filterName := some "spam",
                 df := { cols := s.df.cols,
                         rows := s.df.rows.filter (fun r =>
                           !(((s.df.rows.map (fun q => q.url)).dedup.filter
                               (fun page => spamStrings.any
                                 (fun phrase => strContains page phrase))).contains r.url)) } }
  | .files =>
    .ok { s with filterName := some "files",
                 df := { cols := s.df.cols,
                         rows := s.df.rows.filter (fun r => !(strContains r.url "/files")) } }
  | .commonStrings strs =>
    .ok { s with filterName := some "common strings",
                 df := { cols := s.df.cols,
                         rows := strs.foldl
                           (fun acc str => acc.filter (fun r => !(strContains r.url str)))
                           s.df.rows } }

/-- A filter call as seen from outside: the body wrapped by the
print-filter-stats decorator, whose verbose report divides by the original
total and therefore raises when that total is zero. -/
def applyFilter (f : FilterStep) (s : State) : Except String State :=
  match runFilterBody f s with
  | .error e => .error e
  | .ok s' =>
    if s'.verbose then
      if s'.originalTotal = 0 then .error "ZeroDivisionError" else .ok s'
    else .ok s'

/-- A sequence of filter calls, stopping at the first error. -/
def applyFilters : List FilterStep → State → Except String State
  | [], s => .ok s
  | f :: fs, s =>
    match applyFilter f s with
    | .ok s' => applyFilters fs s'
    | .error e => .error e

/-- undo underscore filter: put the unfiltered snapshot back as the current
frame and re-run the checkpoint bookkeeping.  Before any load or subset
the snapshot attribute does not exist, which the embedding surfaces as an
error. -/
def undoFilter (s : State) : Except String State :=
  match s.unfiltered with
  | none => .error "AttributeError: unfiltered_df"
  | some u => .ok (updateOriginalTotalRequests { s with df := u })

theorem runFilterBody_frame (f : FilterStep) (s s' : State)
    (h : runFilterBody f s = .ok s') :
    s'.unfiltered = s.unfiltered ∧ s'.originalTotal = s.originalTotal ∧
      s'.ip = s.ip ∧ s'.dfXml = s.dfXml ∧ s'.verbose = s.verbose := by
  cases f with
  | nonErddap => cases h; exact ⟨rfl, rfl, rfl, rfl, rfl⟩
  | organisations orgs =>
    simp only [runFilterBody] at h
    split at h
    · cases h; exact ⟨rfl, rfl, rfl, rfl, rfl⟩
    · cases h
  | userAgents isBot => cases h; exact ⟨rfl, rfl, rfl, rfl, rfl⟩
  | locales ls => cases h; exact ⟨rfl, rfl, rfl, rfl, rfl⟩
  | spam strs => cases h; exact ⟨rfl, rfl, rfl, rfl, rfl⟩
  | files => cases h; exact ⟨rfl, rfl, rfl, rfl, rfl⟩
  | commonStrings strs => cases h; exact ⟨rfl, rfl, rfl, rfl, rfl⟩

/-- C9.  Every filter call that returns modifies at most the current frame
and the last-filter-name field: the unfiltered checkpoint snapshot, the
original-total-requests count, the ip cache frame and the dataset-registry
frame are all unchanged. -/
theorem c9_filters_frame (f : FilterStep) (s s' : State)
    (h : applyFilter f s = .ok s') :
    s'.unfiltered = s.unfiltered ∧ s'.originalTotal = s.originalTotal ∧
      s'.ip = s.ip ∧ s'.dfXml = s.dfXml := by
  simp only [applyFilter] at h
  cases hb : runFilterBody f s with
  | error e => simp only [hb] at h; cases h
  | ok t =>
    simp only [hb] at h
    have ht : t = s' := by
      split at h
      · split at h
        · cases h
        · cases h; rfl
      · cases h; rfl
    obtain ⟨h1, h2, h3, h4, _⟩ := runFilterBody_frame f s t hb
    exact ⟨ht ▸ h1, ht ▸ h2, ht ▸ h3, ht ▸ h4⟩

/-- A checkpointed sample session used by witnesses: one loaded row. -/
def sampleRow : Row :=
  { ip := "10.0.0.1", datetime := 5, url := "/erddap/tabledap/x.csv",
    userAgent := "curl/8", statusCode := 200, bytesSent := 17,
    referer := "-", org := none, isp := none, country := none }

/-- A parser state right after a load checkpoint. -/
def sampleState : State := loadLogs initState [sampleRow]

/-- The returned state of a filter call, with a fallback for the error
case; used only to phrase concrete witnesses. -/
def okOr (e : Except String State) (d : State) : State :=
  match e with
  | .ok t => t
  | .error _ => d

/-- C9 witness: the frame theorem applied to a concrete run of the
non-erddap filter on the sample session. -/
theorem c9_witness :
    (okOr (applyFilter FilterStep.nonErddap sampleState) sampleState).unfiltered
        = sampleState.unfiltered ∧
    (okOr (applyFilter FilterStep.nonErddap sampleState) sampleState).originalTotal
        = sampleState.originalTotal ∧
    (okOr (applyFilter FilterStep.nonErddap sampleState) sampleState).ip
        = sampleState.ip ∧
    (okOr (applyFilter FilterStep.nonErddap sampleState) sampleState).dfXml
        = sampleState.dfXml :=
  c9_filters_frame FilterStep.nonErddap sampleState
    (okOr (applyFilter FilterStep.nonErddap sampleState) sampleState) (by rfl)

theorem applyFilter_unfiltered (f : FilterStep) (s s' : State)
    (h : applyFilter f s = .ok s') : s'.unfiltered = s.unfiltered :=
  (c9_filters_frame f s s' h).1

theorem applyFilters_unfiltered (fs : List FilterStep) (s s' : State)
    (h : applyFilters fs s = .ok s') : s'.unfiltered = s.unfiltered := by
  induction fs generalizing s with
  | nil => cases h; rfl
  | cons f fs ih =>
    simp only [applyFilters] at h
    cases hf : applyFilter f s with
    | error e => rw [hf] at h; cases h
    | ok t =>
      rw [hf] at h
      exact (ih t h).trans (applyFilter_unfiltered f s t hf)

/-- C3.  From any state at a load/subset checkpoint (the unfiltered
snapshot equals the current frame), after any sequence of filter calls
that returns, undo restores the current frame row for row to the
checkpoint frame: a single-level revert to the checkpoint. -/
theorem c3_undo_restores_checkpoint (s : State) (fs : List FilterStep)
    (s' : State) (hcp : s.unfiltered = some s.df)
    (h : applyFilters fs s = .ok s') :
    ∃ t : State, undoFilter s' = .ok t ∧ t.df = s.df := by
  have hu : s'.unfiltered = some s.df := (applyFilters_unfiltered fs s s' h).trans hcp
  refine ⟨updateOriginalTotalRequests { s' with df := s.df }, ?_, rfl⟩
  simp [undoFilter, hu]

/-- C3 witness: the checkpoint-revert theorem applied to the concrete
sample session after one files-filter call. -/
theorem c3_witness :
    ∃ t : State,
      undoFilter (okOr (applyFilters [FilterStep.files] sampleState) sampleState)
          = .ok t ∧
        t.df = sampleState.df :=
  c3_undo_restores_checkpoint sampleState [FilterStep.files]
    (okOr (applyFilters [FilterStep.files] sampleState) sampleState)
    (by rfl) (by rfl)

/-! ## get underscore ip underscore info on the session (C4) -/

/-- The column names the enrichment join adds to the request frame. -/
def geoCols : List String :=
  ["status", "country", "countryCode", "region", "regionName", "city", "zip",
    "lat", "lon", "timezone", "isp", "org", "as"]

/-- Copy the geo fields of one cache row onto one request row. -/
def joinGeo (r : Row) (m : IpRow) : Row :=
  { r with org := m.org, isp := m.isp, country := m.country }

/-- The left join of the request rows with the cache frame on ip equals
query: a row with no cache match is kept with null geo fields, a row with
several matches is repeated once per match. -/
def joinLeftIp (rows : List Row) (ipRows : List IpRow) : List Row :=
  rows.flatMap (fun r =>
    match ipRows.filter (fun m => m.query == some r.ip) with
    | [] => [r]
    | ms => ms.map (joinGeo r))

/-- get underscore ip underscore info on the session: if the frame already
carries a country column the method returns at once, touching nothing and
issuing no lookups; otherwise it runs the cache/lookup core, stores the
cache frame on the session and left-joins it onto the request frame,
re-sorting by datetime.  The second component counts the external lookup
requests issued by the call. -/
def getIpInfo (s : State) (cacheFile : Option (List IpRow)) (downloadNew : Bool)
    (numIps : Nat) (oracle : String → Resp) : State × Nat :=
  if "country" ∈ s.df.cols then (s, 0)
  else
    ({ s with
        ip := (getIpInfoCore (s.df.rows.map (fun r => r.ip)) cacheFile downloadNew
          numIps oracle).dfIp,
        df := { cols := s.df.cols ++ geoCols,
                rows := sortByDatetime (joinLeftIp s.df.rows
                  (getIpInfoCore (s.df.rows.map (fun r => r.ip)) cacheFile
                    downloadNew numIps oracle).dfIp) } },
      (getIpInfoCore (s.df.rows.map (fun r => r.ip)) cacheFile downloadNew numIps
        oracle).attempted.length)

/-- C4.  Calling get underscore ip underscore info on a session whose frame
already carries the country geo column is a no-op: the session (its frame
included) is returned unchanged and zero external lookups are issued. -/
theorem c4_get_ip_info_idempotent_guard (s : State)
    (cacheFile : Option (List IpRow)) (downloadNew : Bool) (numIps : Nat)
    (oracle : String → Resp) (h : "country" ∈ s.df.cols) :
    getIpInfo s cacheFile downloadNew numIps oracle = (s, 0) := by
  rw [getIpInfo, if_pos h]

/-- A sample session whose frame already carries the geo columns, as left
by a previous enrichment call. -/
def sampleEnrichedState : State :=
  { sampleState with
      df := { cols := sampleState.df.cols ++ geoCols, rows := sampleState.df.rows } }

/-- C4 witness: the guard theorem applied to the concrete enriched sample
session. -/
theorem c4_witness :
    getIpInfo sampleEnrichedState none true 60 sampleOracle
      = (sampleEnrichedState, 0) :=
  c4_get_ip_info_idempotent_guard sampleEnrichedState none true 60 sampleOracle
    (by decide)

end ErddapLogs
